import Mathlib

/-!
Shallow embedding of the SCRAM-SHA-256 verifier generator (`main.go`) and of
the cryptographic primitives it uses (SHA-256, HMAC-SHA-256, PBKDF2 from the
Go standard / x-crypto libraries), over byte sequences modelled as `List Nat`
with values reduced modulo 256.
-/

namespace Scram

/-- Reduce a machine word to 32 bits. -/
def w32 (n : Nat) : Nat := n % 4294967296

/-- Right rotation of a 32-bit word by `k` bits. -/
def rotr (k x : Nat) : Nat := x / 2 ^ k + x % 2 ^ k * 2 ^ (32 - k)

/-- Logical right shift of a 32-bit word by `k` bits. -/
def shr (k x : Nat) : Nat := x / 2 ^ k

/-- SHA-256 `Ch` function: `(x ∧ y) ⊕ (¬x ∧ z)` on 32-bit words. -/
def sha256Ch (x y z : Nat) : Nat := (x &&& y) ^^^ ((x ^^^ 4294967295) &&& z)

/-- SHA-256 `Maj` function. -/
def sha256Maj (x y z : Nat) : Nat := (x &&& y) ^^^ (x &&& z) ^^^ (y &&& z)

/-- SHA-256 big sigma 0. -/
def bigSigma0 (x : Nat) : Nat := rotr 2 x ^^^ rotr 13 x ^^^ rotr 22 x

/-- SHA-256 big sigma 1. -/
def bigSigma1 (x : Nat) : Nat := rotr 6 x ^^^ rotr 11 x ^^^ rotr 25 x

/-- SHA-256 small sigma 0. -/
def smallSigma0 (x : Nat) : Nat := rotr 7 x ^^^ rotr 18 x ^^^ shr 3 x

/-- SHA-256 small sigma 1. -/
def smallSigma1 (x : Nat) : Nat := rotr 17 x ^^^ rotr 19 x ^^^ shr 10 x

/-- The eight working variables of the SHA-256 compression function. -/
structure Hash8 where
  a : Nat
  b : Nat
  c : Nat
  d : Nat
  e : Nat
  f : Nat
  g : Nat
  h : Nat

/-- SHA-256 initial hash value (FIPS 180-4, written in decimal). -/
def sha256Init : Hash8 :=
  ⟨1779033703, 3144134277, 1013904242, 2773480762,
   1359893119, 2600822924, 528734635, 1541459225⟩

/-- The 64 SHA-256 round constants (FIPS 180-4, written in decimal). -/
def sha256K : List Nat :=
  [1116352408, 1899447441, 3049323471, 3921009573, 961987163, 1508970993, 2453635748,
   2870763221, 3624381080, 310598401, 607225278, 1426881987, 1925078388, 2162078206,
   2614888103, 3248222580, 3835390401, 4022224774, 264347078, 604807628, 770255983,
   1249150122, 1555081692, 1996064986, 2554220882, 2821834349, 2952996808, 3210313671,
   3336571891, 3584528711, 113926993, 338241895, 666307205, 773529912, 1294757372,
   1396182291, 1695183700, 1986661051, 2177026350, 2456956037, 2730485921, 2820302411,
   3259730800, 3345764771, 3516065817, 3600352804, 4094571909, 275423344, 430227734,
   506948616, 659060556, 883997877, 958139571, 1322822218, 1537002063, 1747873779,
   1955562222, 2024104815, 2227730452, 2361852424, 2428436474, 2756734187, 3204031479,
   3329325298]

/-- Pack a byte stream into big-endian 32-bit words (4 bytes per word). -/
def toWords32 : List Nat → List Nat
  | b0 :: b1 :: b2 :: b3 :: rest =>
      (b0 % 256 * 16777216 + b1 % 256 * 65536 + b2 % 256 * 256 + b3 % 256) :: toWords32 rest
  | _ => []

/-- Extend the 16-word message schedule by `n` further words. -/
def sha256ScheduleExt : Nat → List Nat → List Nat
  | 0, ws => ws
  | n + 1, ws =>
      let l := ws.length
      sha256ScheduleExt n (ws ++ [w32 (smallSigma1 (ws.getD (l - 2) 0) + ws.getD (l - 7) 0 +
        smallSigma0 (ws.getD (l - 15) 0) + ws.getD (l - 16) 0)])

/-- The full 64-word SHA-256 message schedule of one block. -/
def sha256Schedule (ws : List Nat) : List Nat := sha256ScheduleExt 48 ws

/-- One round of the SHA-256 compression function. -/
def sha256Round (st : Hash8) (kw : Nat × Nat) : Hash8 :=
  let t1 := w32 (st.h + bigSigma1 st.e + sha256Ch st.e st.f st.g + kw.1 + kw.2)
  let t2 := w32 (bigSigma0 st.a + sha256Maj st.a st.b st.c)
  ⟨w32 (t1 + t2), st.a, st.b, st.c, w32 (st.d + t1), st.e, st.f, st.g⟩

/-- Compress one 64-byte block into the running hash state. -/
def sha256Compress (st : Hash8) (block : List Nat) : Hash8 :=
  let ws := sha256Schedule (toWords32 block)
  let s := (List.zip sha256K ws).foldl sha256Round st
  ⟨w32 (st.a + s.a), w32 (st.b + s.b), w32 (st.c + s.c), w32 (st.d + s.d),
   w32 (st.e + s.e), w32 (st.f + s.f), w32 (st.g + s.g), w32 (st.h + s.h)⟩

/-- Big-endian bytes of a 64-bit length field. -/
def be64bytes (n : Nat) : List Nat :=
  [n / 2 ^ 56 % 256, n / 2 ^ 48 % 256, n / 2 ^ 40 % 256, n / 2 ^ 32 % 256,
   n / 2 ^ 24 % 256, n / 2 ^ 16 % 256, n / 2 ^ 8 % 256, n % 256]

/-- Big-endian bytes of a 32-bit word. -/
def be32bytes (w : Nat) : List Nat :=
  [w / 16777216 % 256, w / 65536 % 256, w / 256 % 256, w % 256]

/-- SHA-256 padding: `0x80`, zeros to 56 mod 64, then the bit length, big-endian. -/
def padMessage (msg : List Nat) : List Nat :=
  msg ++ 0x80 :: List.replicate ((119 - msg.length % 64) % 64) 0 ++ be64bytes (8 * msg.length)

/-- Fold the compression function over consecutive 64-byte blocks. -/
def sha256Blocks (st : Hash8) (bytes : List Nat) : Hash8 :=
  if h : bytes = [] then st
  else sha256Blocks (sha256Compress st (bytes.take 64)) (bytes.drop 64)
termination_by bytes.length
decreasing_by
  simp only [List.length_drop]
  have : 0 < bytes.length := List.length_pos.mpr h
  omega

/-- Serialize the final hash state as 32 big-endian bytes. -/
def hashToBytes (st : Hash8) : List Nat :=
  be32bytes st.a ++ be32bytes st.b ++ be32bytes st.c ++ be32bytes st.d ++
  be32bytes st.e ++ be32bytes st.f ++ be32bytes st.g ++ be32bytes st.h

/-- SHA-256 of a byte sequence (`crypto/sha256`). -/
def sha256 (msg : List Nat) : List Nat :=
  hashToBytes (sha256Blocks sha256Init (padMessage msg))

theorem sha256_length (msg : List Nat) : (sha256 msg).length = 32 := by
  simp [sha256, hashToBytes, be32bytes]

theorem mem_be32bytes_lt {x w : Nat} (h : x ∈ be32bytes w) : x < 256 := by
  simp only [be32bytes, List.mem_cons, List.not_mem_nil, or_false] at h
  rcases h with rfl | rfl | rfl | rfl <;> omega

theorem sha256_lt (msg : List Nat) : ∀ x ∈ sha256 msg, x < 256 := by
  intro x hx
  simp only [sha256, hashToBytes, List.mem_append] at hx
  rcases hx with ((((((h | h) | h) | h) | h) | h) | h) | h <;> exact mem_be32bytes_lt h

/-- HMAC-SHA-256 (`crypto/hmac` with `sha256.New`): keys longer than the
64-byte block size are hashed first, the key is zero-padded to 64 bytes, and
the digest is `H((k ⊕ opad) ∥ H((k ⊕ ipad) ∥ msg))`. -/
def hmacSha256 (key msg : List Nat) : List Nat :=
  let k0 := if 64 < key.length then sha256 key else key
  let k1 := k0 ++ List.replicate (64 - k0.length) 0
  sha256 ((k1.map fun b => b ^^^ 0x5c) ++ sha256 ((k1.map fun b => b ^^^ 0x36) ++ msg))

theorem hmacSha256_length (key msg : List Nat) : (hmacSha256 key msg).length = 32 :=
  sha256_length _

theorem hmacSha256_lt (key msg : List Nat) : ∀ x ∈ hmacSha256 key msg, x < 256 :=
  sha256_lt _

/-- The inner loop of one PBKDF2 block (`golang.org/x/crypto/pbkdf2`):
starting from `U₁`, run `n` further rounds `Uⱼ = PRF(password, Uⱼ₋₁)`,
xoring each `Uⱼ` into the accumulator `t`. -/
def pbkdf2Inner (password : List Nat) : List Nat → List Nat → Nat → List Nat
  | t, _, 0 => t
  | t, u, n + 1 =>
      let u1 := hmacSha256 password u
      pbkdf2Inner password (List.zipWith (fun a b => a ^^^ b) t u1) u1 n

/-- One output block `T_blockIdx` of PBKDF2-HMAC-SHA-256. -/
def pbkdf2BlockT (password salt : List Nat) (iter blockIdx : Nat) : List Nat :=
  let u1 := hmacSha256 password (salt ++ be32bytes blockIdx)
  pbkdf2Inner password u1 u1 (iter - 1)

/-- PBKDF2 with HMAC-SHA-256 as PRF (`pbkdf2.Key(password, salt, iter, keyLen, sha256.New)`). -/
def pbkdf2Key (password salt : List Nat) (iter keyLen : Nat) : List Nat :=
  let numBlocks := (keyLen + 31) / 32
  (((List.range numBlocks).map fun i => pbkdf2BlockT password salt iter (i + 1)).flatten).take keyLen

theorem pbkdf2Inner_length (password : List Nat) :
    ∀ (n : Nat) (t u : List Nat), t.length = 32 → (pbkdf2Inner password t u n).length = 32 := by
  intro n
  induction n with
  | zero => intro t u ht; simpa [pbkdf2Inner] using ht
  | succ n ih =>
      intro t u ht
      simp only [pbkdf2Inner]
      apply ih
      simp [List.length_zipWith, ht, hmacSha256_length]

theorem zipWith_xor_lt :
    ∀ (t u : List Nat), (∀ x ∈ t, x < 256) → (∀ x ∈ u, x < 256) →
      ∀ x ∈ List.zipWith (fun a b => a ^^^ b) t u, x < 256 := by
  intro t
  induction t with
  | nil => intro u _ _ x hx; simp at hx
  | cons a t ih =>
      intro u ht hu x hx
      cases u with
      | nil => simp at hx
      | cons b u =>
          simp only [List.zipWith_cons_cons, List.mem_cons] at hx
          rcases hx with rfl | hx
          · have h1 : a < 256 := ht a (by simp)
            have h2 : b < 256 := hu b (by simp)
            have h3 : a ^^^ b < 2 ^ 8 :=
              Nat.xor_lt_two_pow (by omega) (by omega)
            omega
          · exact ih u (fun y hy => ht y (by simp [hy])) (fun y hy => hu y (by simp [hy])) x hx

theorem pbkdf2Inner_lt (password : List Nat) :
    ∀ (n : Nat) (t u : List Nat), (∀ x ∈ t, x < 256) →
      ∀ x ∈ pbkdf2Inner password t u n, x < 256 := by
  intro n
  induction n with
  | zero => intro t u ht; simpa [pbkdf2Inner] using ht
  | succ n ih =>
      intro t u ht
      simp only [pbkdf2Inner]
      exact ih _ _ (zipWith_xor_lt _ _ ht (hmacSha256_lt _ _))

theorem pbkdf2Key32_length (password salt : List Nat) (iter : Nat) :
    (pbkdf2Key password salt iter 32).length = 32 := by
  have hb : (pbkdf2BlockT password salt iter 1).length = 32 := by
    unfold pbkdf2BlockT
    exact pbkdf2Inner_length password _ _ _ (hmacSha256_length _ _)
  simp [pbkdf2Key, List.range_succ, hb]

theorem pbkdf2Key32_lt (password salt : List Nat) (iter : Nat) :
    ∀ x ∈ pbkdf2Key password salt iter 32, x < 256 := by
  intro x hx
  simp only [pbkdf2Key, List.range_succ] at hx
  have hx2 := List.mem_of_mem_take hx
  simp only [List.range_zero, List.nil_append, List.map_cons, List.map_nil, List.flatten,
    List.append_nil, List.mem_append, List.not_mem_nil, or_false] at hx2
  revert hx2
  unfold pbkdf2BlockT
  intro hx2
  exact pbkdf2Inner_lt password _ _ _ (hmacSha256_lt _ _) x (by simpa using hx2)

/-- The RFC 4648 standard base64 alphabet used by Go's `base64.StdEncoding`. -/
def b64tbl : List Char :=
  "ABCDEFGHIJKLMNOPQRSTUVWXYZabcdefghijklmnopqrstuvwxyz0123456789+/".data

/-- Character for a 6-bit group. -/
def b64chr (n : Nat) : Char := b64tbl.getD n 'A'

/-- Standard padded base64 encoding (`base64.StdEncoding.EncodeToString`). -/
def b64encode : List Nat → List Char
  | [] => []
  | [b1] => [b64chr (b1 / 4), b64chr (b1 % 4 * 16), '=', '=']
  | [b1, b2] => [b64chr (b1 / 4), b64chr (b1 % 4 * 16 + b2 / 16), b64chr (b2 % 16 * 4), '=']
  | b1 :: b2 :: b3 :: rest =>
      b64chr (b1 / 4) :: b64chr (b1 % 4 * 16 + b2 / 16) ::
      b64chr (b2 % 16 * 4 + b3 / 64) :: b64chr (b3 % 64) :: b64encode rest

/-- Index of a character in the base64 alphabet (64 when absent). -/
def b64val (c : Char) : Nat := b64tbl.findIdx fun x => x == c

/-- Standard padded base64 decoding, structural: groups of four characters,
with `=` padding allowed only in the final group. -/
def b64decode : List Char → Option (List Nat)
  | [] => some []
  | c1 :: c2 :: c3 :: c4 :: rest =>
      if rest.isEmpty then
        if c3 = '=' ∧ c4 = '=' then some [b64val c1 * 4 + b64val c2 / 16]
        else if c4 = '=' then
          some [b64val c1 * 4 + b64val c2 / 16, b64val c2 % 16 * 16 + b64val c3 / 4]
        else
          some [b64val c1 * 4 + b64val c2 / 16, b64val c2 % 16 * 16 + b64val c3 / 4,
                b64val c3 % 4 * 64 + b64val c4]
      else
        match b64decode rest with
        | some tail =>
            some ((b64val c1 * 4 + b64val c2 / 16) :: (b64val c2 % 16 * 16 + b64val c3 / 4) ::
                  (b64val c3 % 4 * 64 + b64val c4) :: tail)
        | none => none
  | _ => none

theorem b64val_b64chr : ∀ n, n < 64 → b64val (b64chr n) = n := by decide

theorem b64chr_mem (n : Nat) : b64chr n ∈ b64tbl := by
  rw [b64chr, List.getD_eq_getElem?_getD]
  cases h : b64tbl[n]? with
  | none => simp only [Option.getD_none]; decide
  | some c =>
      simp only [Option.getD_some]
      exact List.getElem?_mem h

theorem b64chr_ne_eq (n : Nat) : b64chr n ≠ '=' := by
  have h := b64chr_mem n
  intro he
  rw [he] at h
  revert h
  decide

theorem mem_b64tbl_ne (c : Char) (h : c ∈ b64tbl) : c ≠ '$' ∧ c ≠ ':' := by
  constructor <;> rintro rfl <;> revert h <;> decide

theorem b64encode_mem : ∀ (b : List Nat) (c : Char), c ∈ b64encode b → c ∈ b64tbl ∨ c = '=' := by
  intro b
  induction b using b64encode.induct with
  | case1 => intro c hc; simp [b64encode] at hc
  | case2 b1 =>
      intro c hc
      simp only [b64encode, List.mem_cons, List.not_mem_nil, or_false] at hc
      rcases hc with rfl | rfl | rfl | rfl
      · exact Or.inl (b64chr_mem _)
      · exact Or.inl (b64chr_mem _)
      · exact Or.inr rfl
      · exact Or.inr rfl
  | case3 b1 b2 =>
      intro c hc
      simp only [b64encode, List.mem_cons, List.not_mem_nil, or_false] at hc
      rcases hc with rfl | rfl | rfl | rfl
      · exact Or.inl (b64chr_mem _)
      · exact Or.inl (b64chr_mem _)
      · exact Or.inl (b64chr_mem _)
      · exact Or.inr rfl
  | case4 b1 b2 b3 rest ih =>
      intro c hc
      simp only [b64encode, List.mem_cons] at hc
      rcases hc with rfl | rfl | rfl | rfl | hc
      · exact Or.inl (b64chr_mem _)
      · exact Or.inl (b64chr_mem _)
      · exact Or.inl (b64chr_mem _)
      · exact Or.inl (b64chr_mem _)
      · exact ih c hc

theorem b64encode_ne_delim (b : List Nat) (c : Char) (hc : c ∈ b64encode b) :
    c ≠ '$' ∧ c ≠ ':' := by
  rcases b64encode_mem b c hc with h | rfl
  · exact mem_b64tbl_ne c h
  · constructor <;> decide

theorem b64encode_length : ∀ b : List Nat, (b64encode b).length = (b.length + 2) / 3 * 4 := by
  intro b
  induction b using b64encode.induct with
  | case1 => simp [b64encode]
  | case2 b1 => simp [b64encode]
  | case3 b1 b2 => simp [b64encode]
  | case4 b1 b2 b3 rest ih =>
      simp only [b64encode, List.length_cons, ih]
      omega

theorem b64encode_ne_nil (b : List Nat) (hb : b ≠ []) : b64encode b ≠ [] := by
  intro h
  have hl := b64encode_length b
  rw [h] at hl
  simp only [List.length_nil] at hl
  have : b.length ≠ 0 := fun hz => hb (List.length_eq_zero.mp hz)
  omega

theorem b64decode_b64encode :
    ∀ b : List Nat, (∀ x ∈ b, x < 256) → b64decode (b64encode b) = some b := by
  intro b
  induction b using b64encode.induct with
  | case1 => intro _; rfl
  | case2 b1 =>
      intro hb
      have h1 : b1 < 256 := hb b1 (by simp)
      have e1 : b1 / 4 * 4 + b1 % 4 * 16 / 16 = b1 := by omega
      simp only [b64encode, b64decode, List.isEmpty_nil, if_true, eq_self_iff_true,
        and_self, reduceIte]
      rw [b64val_b64chr _ (by omega), b64val_b64chr _ (by omega), e1]
  | case3 b1 b2 =>
      intro hb
      have h1 : b1 < 256 := hb b1 (by simp)
      have h2 : b2 < 256 := hb b2 (by simp)
      have e1 : b1 / 4 * 4 + (b1 % 4 * 16 + b2 / 16) / 16 = b1 := by omega
      have e2 : (b1 % 4 * 16 + b2 / 16) % 16 * 16 + b2 % 16 * 4 / 4 = b2 := by omega
      simp only [b64encode, b64decode, List.isEmpty_nil, if_true, b64chr_ne_eq,
        eq_self_iff_true, and_self, and_true, false_and, if_false, reduceIte]
      rw [b64val_b64chr _ (by omega), b64val_b64chr _ (by omega), b64val_b64chr _ (by omega),
        e1, e2]
  | case4 b1 b2 b3 rest ih =>
      intro hb
      have h1 : b1 < 256 := hb b1 (by simp)
      have h2 : b2 < 256 := hb b2 (by simp)
      have h3 : b3 < 256 := hb b3 (by simp)
      have e1 : b1 / 4 * 4 + (b1 % 4 * 16 + b2 / 16) / 16 = b1 := by omega
      have e2 : (b1 % 4 * 16 + b2 / 16) % 16 * 16 + (b2 % 16 * 4 + b3 / 64) / 4 = b2 := by omega
      have e3 : (b2 % 16 * 4 + b3 / 64) % 4 * 64 + b3 % 64 = b3 := by omega
      by_cases hrest : rest = []
      · subst hrest
        simp only [b64encode, b64decode, List.isEmpty_nil, if_true, b64chr_ne_eq,
          and_false, false_and, and_self, if_false, reduceIte]
        rw [b64val_b64chr _ (by omega), b64val_b64chr _ (by omega),
          b64val_b64chr _ (by omega), b64val_b64chr _ (by omega), e1, e2, e3]
      · have hne : b64encode rest ≠ [] := b64encode_ne_nil rest hrest
        have hrec : b64decode (b64encode rest) = some rest :=
          ih fun x hx => hb x (by simp [hx])
        have hfalse : (b64encode rest).isEmpty = false := by
          simpa [List.isEmpty_iff] using hne
        simp only [b64encode, b64decode, hfalse, Bool.false_eq_true, if_false, hrec]
        rw [b64val_b64chr _ (by omega), b64val_b64chr _ (by omega),
          b64val_b64chr _ (by omega), b64val_b64chr _ (by omega), e1, e2, e3]

/-- Character for one decimal digit. -/
def digitChar (d : Nat) : Char := Char.ofNat (48 + d)

/-- Decimal representation of a natural number, as printed by Go's `%d`. -/
def natDecimal (n : Nat) : List Char :=
  if n = 0 then ['0'] else (Nat.digits 10 n).reverse.map digitChar

/-- Decimal representation of a Go `int`, as printed by `%d`. -/
def intDecimal (i : Int) : List Char :=
  if i < 0 then '-' :: natDecimal i.natAbs else natDecimal i.toNat

/-- ASCII decimal digit test. -/
def isDigit (c : Char) : Bool := decide (48 ≤ c.toNat) && decide (c.toNat ≤ 57)

theorem digitChar_isDigit : ∀ d, d < 10 → isDigit (digitChar d) = true := by decide

theorem digitChar_toNat : ∀ d, d < 10 → (digitChar d).toNat - 48 = d := by decide

theorem isDigit_ne_delim (c : Char) (h : isDigit c = true) : c ≠ '$' ∧ c ≠ ':' := by
  constructor <;> rintro rfl <;> simp [isDigit] at h

theorem natDecimal_isDigit (n : Nat) : ∀ c ∈ natDecimal n, isDigit c = true := by
  intro c hc
  unfold natDecimal at hc
  by_cases h : n = 0
  · rw [if_pos h] at hc
    simp only [List.mem_singleton] at hc
    subst hc
    decide
  · rw [if_neg h] at hc
    simp only [List.mem_map, List.mem_reverse] at hc
    obtain ⟨d, hd, rfl⟩ := hc
    exact digitChar_isDigit d (Nat.digits_lt_base (by omega) hd)

theorem natDecimal_ne_nil (n : Nat) : natDecimal n ≠ [] := by
  unfold natDecimal
  by_cases h : n = 0
  · simp [h]
  · rw [if_neg h]
    simp only [ne_eq, List.map_eq_nil_iff, List.reverse_eq_nil_iff]
    exact Nat.digits_ne_nil_iff_ne_zero.mpr h

/-- Parse a non-empty all-digit character sequence as a decimal natural. -/
def parseNatChars (cs : List Char) : Option Nat :=
  if cs ≠ [] ∧ cs.all isDigit then
    some (cs.foldl (fun acc c => acc * 10 + (c.toNat - 48)) 0)
  else none

theorem parse_foldl_digits :
    ∀ (ds : List Nat) (acc : Nat), (∀ d ∈ ds, d < 10) →
      List.foldl (fun acc c => acc * 10 + (c.toNat - 48)) acc (ds.reverse.map digitChar) =
        acc * 10 ^ ds.length + Nat.ofDigits 10 ds := by
  intro ds
  induction ds with
  | nil => intro acc _; simp [Nat.ofDigits]
  | cons d ds ih =>
      intro acc hd
      simp only [List.reverse_cons, List.map_append, List.map_cons, List.map_nil,
        List.foldl_append, List.foldl_cons, List.foldl_nil]
      rw [ih acc (fun x hx => hd x (by simp [hx]))]
      rw [digitChar_toNat d (hd d (by simp))]
      simp only [List.length_cons, Nat.ofDigits_cons]
      ring

theorem parseNatChars_natDecimal (n : Nat) : parseNatChars (natDecimal n) = some n := by
  unfold parseNatChars
  rw [if_pos ⟨natDecimal_ne_nil n, by
    rw [List.all_eq_true]; exact natDecimal_isDigit n⟩]
  by_cases h : n = 0
  · subst h; rfl
  · unfold natDecimal
    rw [if_neg h]
    rw [parse_foldl_digits _ 0 (fun d hd => Nat.digits_lt_base (by omega) hd)]
    rw [Nat.ofDigits_digits]
    simp

/-- Go's `utf8.ValidString`: checks that a byte sequence is well-formed UTF-8
(no surrogates, no overlong encodings, maximum code point `U+10FFFF`). -/
def utf8Valid : List Nat → Bool
  | [] => true
  | b :: rest =>
      if b < 0x80 then utf8Valid rest
      else if b < 0xC2 then false
      else if b ≤ 0xDF then
        match rest with
        | b2 :: r => decide (0x80 ≤ b2) && decide (b2 ≤ 0xBF) && utf8Valid r
        | _ => false
      else if b ≤ 0xEF then
        match rest with
        | b2 :: b3 :: r =>
            (if b = 0xE0 then decide (0xA0 ≤ b2) && decide (b2 ≤ 0xBF)
             else if b = 0xED then decide (0x80 ≤ b2) && decide (b2 ≤ 0x9F)
             else decide (0x80 ≤ b2) && decide (b2 ≤ 0xBF)) &&
            (decide (0x80 ≤ b3) && decide (b3 ≤ 0xBF)) && utf8Valid r
        | _ => false
      else if b ≤ 0xF4 then
        match rest with
        | b2 :: b3 :: b4 :: r =>
            (if b = 0xF0 then decide (0x90 ≤ b2) && decide (b2 ≤ 0xBF)
             else if b = 0xF4 then decide (0x80 ≤ b2) && decide (b2 ≤ 0x8F)
             else decide (0x80 ≤ b2) && decide (b2 ≤ 0xBF)) &&
            (decide (0x80 ≤ b3) && decide (b3 ≤ 0xBF)) &&
            (decide (0x80 ≤ b4) && decide (b4 ≤ 0xBF)) && utf8Valid r
        | _ => false
      else false

/-- `validatePassword` from `main.go`: `some msg` models a non-nil Go `error`. -/
def validatePassword (password : List Nat) : Option String :=
  if password.length = 0 then some ("password cannot be empty")
  else if ¬ utf8Valid password then some ("password must be valid UTF-8")
  else none

/-- The program's view of `crypto/rand`: a byte stream, a read position, and a
flag recording whether the underlying CSPRNG works. -/
structure Rng where
  stream : Nat → Nat
  pos : Nat
  ok : Bool

/-- The `n` bytes that a successful `rand.Read` would deliver next. -/
def rngBytes (rng : Rng) (n : Nat) : List Nat :=
  (List.range n).map fun j => rng.stream (rng.pos + j) % 256

/-- `rand.Read`: either delivers the next `n` stream bytes and advances the
position, or fails without consuming anything. -/
def randRead (rng : Rng) (n : Nat) : Except String (List Nat) × Rng :=
  if rng.ok then (Except.ok (rngBytes rng n), { rng with pos := rng.pos + n })
  else (Except.error ("rng failure"), rng)

/-- ASCII bytes of a string literal. -/
def asciiBytes (s : String) : List Nat := s.data.map Char.toNat

/-- The HMAC message of step 3 of the derivation: ASCII `"Client Key"`. -/
def clientKeyMessage : List Nat := asciiBytes ("Client Key")

/-- The HMAC message of step 5 of the derivation: ASCII `"Server Key"`. -/
def serverKeyMessage : List Nat := asciiBytes ("Server Key")

/-- The characters of the literal `"SCRAM-SHA-256"`. -/
def headerChars : List Char :=
  ['S', 'C', 'R', 'A', 'M', '-', 'S', 'H', 'A', '-', '2', '5', '6']

/-- `fmt.Sprintf("SCRAM-SHA-256$%d:%s$%s:%s", iterations, saltB64, storedKeyB64, serverKeyB64)`. -/
def scramFormat (iterations : Int) (saltB64 storedB64 serverB64 : List Char) : List Char :=
  headerChars ++ '$' :: intDecimal iterations ++ ':' :: saltB64 ++ '$' :: storedB64 ++ ':' :: serverB64

/-- `generateSCRAMSHA256` from `main.go`. The returned pair models Go's
`(string, error)` result (`none` = nil error); the `Rng` is threaded
explicitly to model the global `crypto/rand` reader. -/
def generateSCRAMSHA256 (password : List Nat) (iterations : Int) (rng : Rng) :
    (List Char × Option String) × Rng :=
  if iterations < 1 then (([], some ("iterations must be at least 1")), rng)
  else
    match randRead rng 16 with
    | (Except.error e, rng1) => (([], some ("failed to generate salt: " ++ e)), rng1)
    | (Except.ok salt, rng1) =>
        let saltedPassword := pbkdf2Key password salt iterations.toNat 32
        let clientKeyBytes := hmacSha256 saltedPassword clientKeyMessage
        let storedKey := sha256 clientKeyBytes
        let serverKeyBytes := hmacSha256 saltedPassword serverKeyMessage
        ((scramFormat iterations (b64encode salt) (b64encode storedKey)
            (b64encode serverKeyBytes), none), rng1)

/-- `main`'s flow around the core: validate the password, then derive.
Validation failures are printed with the `"Invalid password: "` prefix and the
program exits before any derivation work. -/
def runPipeline (password : List Nat) (iterations : Int) (rng : Rng) :
    (List Char × Option String) × Rng :=
  match validatePassword password with
  | some e => (([], some ("Invalid password: " ++ e)), rng)
  | none => generateSCRAMSHA256 password iterations rng

/-- `bufio.Reader.ReadString('\n')` over a finite stream: the data up to and
including the first newline, and whether the read ended at end-of-stream
without finding the delimiter (Go's `io.EOF`). -/
def readString : List Char → List Char × Bool
  | [] => ([], true)
  | c :: cs => if c = '\n' then ([c], false) else
      let r := readString cs
      (c :: r.1, r.2)

/-- `strings.TrimRight(s, "\r\n")`: remove every trailing `'\r'` or `'\n'`. -/
def trimRightCRLF (s : List Char) : List Char :=
  (s.reverse.dropWhile fun c => c == '\r' || c == '\n').reverse

/-- `readPasswordFromStdin` from `main.go`: read one line; `io.EOF` (stream
ended before a newline) is accepted, and trailing CR/LF are trimmed. -/
def readPasswordFromStdin (input : List Char) : Except String (List Char) :=
  Except.ok (trimRightCRLF (readString input).1)

/-- Split a character list at every occurrence of the delimiter `c`. -/
def splitOnChar (c : Char) : List Char → List (List Char)
  | [] => [[]]
  | x :: xs =>
      if x = c then [] :: splitOnChar c xs
      else
        match splitOnChar c xs with
        | [] => [[x]]
        | y :: ys => (x :: y) :: ys

/-- Parser for the documented verifier grammar
`SCRAM-SHA-256$<iterations>:<salt_b64>$<storedkey_b64>:<serverkey_b64>`:
split on `$` and `:`, parse the decimal iteration count, base64-decode the
three binary fields. -/
def scramParse (s : List Char) : Option (Nat × List Nat × List Nat × List Nat) :=
  match splitOnChar '$' s with
  | [p0, p1, p2] =>
      if p0 = headerChars then
        match splitOnChar ':' p1, splitOnChar ':' p2 with
        | [itChars, saltChars], [storedChars, serverChars] =>
            match parseNatChars itChars, b64decode saltChars,
                b64decode storedChars, b64decode serverChars with
            | some it, some salt, some stored, some server => some (it, salt, stored, server)
            | _, _, _, _ => none
        | _, _ => none
      else none
  | _ => none

theorem splitOnChar_no_delim (c : Char) :
    ∀ xs : List Char, c ∉ xs → splitOnChar c xs = [xs] := by
  intro xs
  induction xs with
  | nil => intro _; rfl
  | cons x xs ih =>
      intro h
      have hx : x ≠ c := fun he => h (by simp [he])
      have hxs : c ∉ xs := fun hm => h (by simp [hm])
      simp only [splitOnChar, if_neg hx, ih hxs]

theorem splitOnChar_append (c : Char) :
    ∀ (xs ys : List Char), c ∉ xs →
      splitOnChar c (xs ++ c :: ys) = xs :: splitOnChar c ys := by
  intro xs
  induction xs with
  | nil => intro ys _; simp [splitOnChar]
  | cons x xs ih =>
      intro ys h
      have hx : x ≠ c := fun he => h (by simp [he])
      have hxs : c ∉ xs := fun hm => h (by simp [hm])
      simp only [List.cons_append, splitOnChar, if_neg hx]
      rw [List.append_eq, ih ys hxs]

theorem dollar_not_mem_headerChars : '$' ∉ headerChars := by decide

theorem trimRightCRLF_decomposition (s : List Char) :
    ∃ t : List Char, trimRightCRLF s ++ t = s ∧
      (∀ c ∈ t, c = '\r' ∨ c = '\n') ∧
      (∀ c : Char, (trimRightCRLF s).getLast? = some c → ¬(c = '\r' ∨ c = '\n')) := by
  refine ⟨(s.reverse.takeWhile fun c => c == '\r' || c == '\n').reverse, ?_, ?_, ?_⟩
  · rw [trimRightCRLF, ← List.reverse_append, List.takeWhile_append_dropWhile,
      List.reverse_reverse]
  · intro c hc
    rw [List.mem_reverse] at hc
    have := List.mem_takeWhile_imp hc
    simp only [Bool.or_eq_true, beq_iff_eq] at this
    exact this
  · intro c hc hcr
    rw [trimRightCRLF, List.getLast?_reverse] at hc
    have h := List.head?_dropWhile_not (fun c => c == '\r' || c == '\n') s.reverse
    rw [hc] at h
    simp only at h
    rcases hcr with rfl | rfl <;> simp at h

theorem natDecimal_not_dollar (n : Nat) : '$' ∉ natDecimal n := fun h =>
  (isDigit_ne_delim _ (natDecimal_isDigit n _ h)).1 rfl

theorem natDecimal_not_colon (n : Nat) : ':' ∉ natDecimal n := fun h =>
  (isDigit_ne_delim _ (natDecimal_isDigit n _ h)).2 rfl

theorem b64encode_not_dollar (b : List Nat) : '$' ∉ b64encode b := fun h =>
  (b64encode_ne_delim b _ h).1 rfl

theorem b64encode_not_colon (b : List Nat) : ':' ∉ b64encode b := fun h =>
  (b64encode_ne_delim b _ h).2 rfl

theorem intDecimal_of_pos (i : Int) (hi : 1 ≤ i) : intDecimal i = natDecimal i.toNat := by
  rw [intDecimal, if_neg (by omega)]

theorem scramParse_scramFormat (i : Int) (hi : 1 ≤ i) (salt stored server : List Nat)
    (hsalt : ∀ x ∈ salt, x < 256) (hst : ∀ x ∈ stored, x < 256)
    (hsv : ∀ x ∈ server, x < 256) :
    scramParse (scramFormat i (b64encode salt) (b64encode stored) (b64encode server)) =
      some (i.toNat, salt, stored, server) := by
  have hD := intDecimal_of_pos i hi
  have hDd : '$' ∉ intDecimal i := by rw [hD]; exact natDecimal_not_dollar _
  have hDc : ':' ∉ intDecimal i := by rw [hD]; exact natDecimal_not_colon _
  have h1 : '$' ∉ intDecimal i ++ ':' :: b64encode salt := by
    intro h
    rcases List.mem_append.mp h with h | h
    · exact hDd h
    · rcases List.mem_cons.mp h with h | h
      · exact absurd h (by decide)
      · exact b64encode_not_dollar salt h
  have h2 : '$' ∉ b64encode stored ++ ':' :: b64encode server := by
    intro h
    rcases List.mem_append.mp h with h | h
    · exact b64encode_not_dollar stored h
    · rcases List.mem_cons.mp h with h | h
      · exact absurd h (by decide)
      · exact b64encode_not_dollar server h
  have hshape : scramFormat i (b64encode salt) (b64encode stored) (b64encode server) =
      headerChars ++ '$' :: ((intDecimal i ++ ':' :: b64encode salt) ++
        '$' :: (b64encode stored ++ ':' :: b64encode server)) := by
    simp [scramFormat, List.append_assoc]
  rw [scramParse, hshape, splitOnChar_append _ _ _ dollar_not_mem_headerChars,
    splitOnChar_append _ _ _ h1, splitOnChar_no_delim _ _ h2]
  simp only [if_pos rfl]
  rw [splitOnChar_append ':' (intDecimal i) (b64encode salt) hDc,
    splitOnChar_no_delim ':' (b64encode salt) (b64encode_not_colon salt),
    splitOnChar_append ':' (b64encode stored) (b64encode server) (b64encode_not_colon stored),
    splitOnChar_no_delim ':' (b64encode server) (b64encode_not_colon server)]
  rw [hD]
  simp only [if_true, parseNatChars_natDecimal, b64decode_b64encode salt hsalt,
    b64decode_b64encode stored hst, b64decode_b64encode server hsv]

theorem rngBytes_length (rng : Rng) (n : Nat) : (rngBytes rng n).length = n := by
  simp [rngBytes]

theorem rngBytes_lt (rng : Rng) (n : Nat) : ∀ x ∈ rngBytes rng n, x < 256 := by
  intro x hx
  simp only [rngBytes, List.mem_map] at hx
  obtain ⟨j, _, rfl⟩ := hx
  omega

theorem generate_ok (p : List Nat) (i : Int) (rng : Rng) (hi : 1 ≤ i) (hok : rng.ok = true) :
    generateSCRAMSHA256 p i rng =
      ((scramFormat i (b64encode (rngBytes rng 16))
          (b64encode (sha256 (hmacSha256 (pbkdf2Key p (rngBytes rng 16) i.toNat 32)
            clientKeyMessage)))
          (b64encode (hmacSha256 (pbkdf2Key p (rngBytes rng 16) i.toNat 32)
            serverKeyMessage)), none),
        { rng with pos := rng.pos + 16 }) := by
  rw [generateSCRAMSHA256, if_neg (by omega), randRead, if_pos hok]

/-- The salt bytes drawn by a successful derivation from the random source. -/
def saltDrawn (rng : Rng) : List Nat := rngBytes rng 16

/-- `SaltedPassword` of step 2: PBKDF2-HMAC-SHA-256 with `dkLen = 32`. -/
def saltedPasswordSpec (p : List Nat) (i : Int) (rng : Rng) : List Nat :=
  pbkdf2Key p (saltDrawn rng) i.toNat 32

/-- `StoredKey` of steps 3–4: `SHA-256(HMAC-SHA-256(SaltedPassword, "Client Key"))`. -/
def storedKeySpec (p : List Nat) (i : Int) (rng : Rng) : List Nat :=
  sha256 (hmacSha256 (saltedPasswordSpec p i rng) clientKeyMessage)

/-- `ServerKey` of step 5: `HMAC-SHA-256(SaltedPassword, "Server Key")`. -/
def serverKeySpec (p : List Nat) (i : Int) (rng : Rng) : List Nat :=
  hmacSha256 (saltedPasswordSpec p i rng) serverKeyMessage

/-- C1: for every non-empty valid-UTF-8 password, every iteration count ≥ 1
and every 16-byte salt (the bytes the random source delivers), the derivation
computes `SaltedPassword = PBKDF2-HMAC-SHA-256(password, salt, iterations, 32)`,
`ClientKey = HMAC-SHA-256(SaltedPassword, "Client Key")`,
`StoredKey = SHA-256(ClientKey)` and
`ServerKey = HMAC-SHA-256(SaltedPassword, "Server Key")`, exactly in these
steps, and emits them in the formatted result. -/
theorem generateSCRAMSHA256_derivation_steps (p : List Nat) (i : Int) (rng : Rng)
    (hp : p ≠ []) (hutf : utf8Valid p = true) (hi : 1 ≤ i) (hok : rng.ok = true) :
    (generateSCRAMSHA256 p i rng).1 =
      (scramFormat i (b64encode (saltDrawn rng))
        (b64encode (sha256 (hmacSha256 (pbkdf2Key p (saltDrawn rng) i.toNat 32)
          clientKeyMessage)))
        (b64encode (hmacSha256 (pbkdf2Key p (saltDrawn rng) i.toNat 32)
          serverKeyMessage)), none) := by
  rw [generate_ok p i rng hi hok]
  rfl

theorem generateSCRAMSHA256_derivation_steps_witness :
    (generateSCRAMSHA256 [109, 121] 1 (Rng.mk (fun _ => 0) 0 true)).1 =
      (scramFormat 1 (b64encode (saltDrawn (Rng.mk (fun _ => 0) 0 true)))
        (b64encode (sha256 (hmacSha256
          (pbkdf2Key [109, 121] (saltDrawn (Rng.mk (fun _ => 0) 0 true)) (1 : Int).toNat 32)
          clientKeyMessage)))
        (b64encode (hmacSha256
          (pbkdf2Key [109, 121] (saltDrawn (Rng.mk (fun _ => 0) 0 true)) (1 : Int).toNat 32)
          serverKeyMessage)), none) :=
  generateSCRAMSHA256_derivation_steps [109, 121] 1 (Rng.mk (fun _ => 0) 0 true)
    (by decide) (by decide) (by decide) rfl

theorem isDigit_not_ws (c : Char) (h : isDigit c = true) :
    ¬(c = ' ' ∨ c = '\t' ∨ c = '\n' ∨ c = '\r') := by
  rintro (rfl | rfl | rfl | rfl) <;> simp [isDigit] at h

theorem b64encode_not_ws (b : List Nat) (c : Char) (hc : c ∈ b64encode b) :
    ¬(c = ' ' ∨ c = '\t' ∨ c = '\n' ∨ c = '\r') := by
  intro hw
  rcases b64encode_mem b c hc with h | rfl
  · rcases hw with rfl | rfl | rfl | rfl <;> revert h <;> decide
  · rcases hw with h | h | h | h <;> exact absurd h (by decide)

theorem scramFormat_mem_class (i : Int) (sa st sv : List Char) (c : Char)
    (hc : c ∈ scramFormat i sa st sv) :
    c ∈ headerChars ∨ c = '$' ∨ c = ':' ∨ c ∈ intDecimal i ∨ c ∈ sa ∨ c ∈ st ∨ c ∈ sv := by
  simp only [scramFormat, List.mem_append, List.mem_cons] at hc
  tauto

theorem scramFormat_not_ws (i : Int) (hi : 1 ≤ i) (sa st sv : List Nat) (c : Char)
    (hc : c ∈ scramFormat i (b64encode sa) (b64encode st) (b64encode sv)) :
    ¬(c = ' ' ∨ c = '\t' ∨ c = '\n' ∨ c = '\r') := by
  rcases scramFormat_mem_class i _ _ _ c hc with h | rfl | rfl | h | h | h | h
  · rintro (rfl | rfl | rfl | rfl) <;> revert h <;> decide
  · decide
  · decide
  · rw [intDecimal_of_pos i hi] at h
    exact isDigit_not_ws c (natDecimal_isDigit _ c h)
  · exact b64encode_not_ws sa c h
  · exact b64encode_not_ws st c h
  · exact b64encode_not_ws sv c h

/-- C2: every successful derivation returns exactly the concatenation
`SCRAM-SHA-256$<iterations>:<salt_b64>$<storedkey_b64>:<serverkey_b64>` with
literal `$` and `:` delimiters, base64-standard-padded fields, and no
whitespace anywhere in the result. -/
theorem generateSCRAMSHA256_output_format (p : List Nat) (i : Int) (rng : Rng)
    (hi : 1 ≤ i) (hok : rng.ok = true) :
    (generateSCRAMSHA256 p i rng).1.1 =
      headerChars ++ '$' :: intDecimal i ++ ':' :: b64encode (saltDrawn rng) ++
        '$' :: b64encode (storedKeySpec p i rng) ++ ':' :: b64encode (serverKeySpec p i rng) ∧
    (generateSCRAMSHA256 p i rng).1.2 = none ∧
    ∀ c ∈ (generateSCRAMSHA256 p i rng).1.1, ¬(c = ' ' ∨ c = '\t' ∨ c = '\n' ∨ c = '\r') := by
  rw [generate_ok p i rng hi hok]
  refine ⟨rfl, rfl, ?_⟩
  intro c hc
  exact scramFormat_not_ws i hi _ _ _ c hc

theorem generateSCRAMSHA256_output_format_witness :
    (generateSCRAMSHA256 [97] 4096 (Rng.mk (fun _ => 0) 0 true)).1.1 =
      headerChars ++ '$' :: intDecimal 4096 ++
        ':' :: b64encode (saltDrawn (Rng.mk (fun _ => 0) 0 true)) ++
        '$' :: b64encode (storedKeySpec [97] 4096 (Rng.mk (fun _ => 0) 0 true)) ++
        ':' :: b64encode (serverKeySpec [97] 4096 (Rng.mk (fun _ => 0) 0 true)) ∧
    (generateSCRAMSHA256 [97] 4096 (Rng.mk (fun _ => 0) 0 true)).1.2 = none ∧
    ∀ c ∈ (generateSCRAMSHA256 [97] 4096 (Rng.mk (fun _ => 0) 0 true)).1.1,
      ¬(c = ' ' ∨ c = '\t' ∨ c = '\n' ∨ c = '\r') :=
  generateSCRAMSHA256_output_format [97] 4096 (Rng.mk (fun _ => 0) 0 true) (by decide) rfl

/-- C3: determinism modulo salt — two runs whose random sources deliver the
same 16 salt bytes produce identical `(string, error)` results for the same
password and iteration count, hence byte-identical `StoredKey`/`ServerKey`. -/
theorem generateSCRAMSHA256_deterministic_modulo_salt (p : List Nat) (i : Int)
    (rng1 rng2 : Rng) (h1 : rng1.ok = true) (h2 : rng2.ok = true)
    (hsalt : rngBytes rng1 16 = rngBytes rng2 16) :
    (generateSCRAMSHA256 p i rng1).1 = (generateSCRAMSHA256 p i rng2).1 ∧
      storedKeySpec p i rng1 = storedKeySpec p i rng2 ∧
      serverKeySpec p i rng1 = serverKeySpec p i rng2 := by
  have hk : saltedPasswordSpec p i rng1 = saltedPasswordSpec p i rng2 := by
    rw [saltedPasswordSpec, saltedPasswordSpec, saltDrawn, saltDrawn, hsalt]
  refine ⟨?_, ?_, ?_⟩
  · by_cases hi : i < 1
    · rw [generateSCRAMSHA256, if_pos hi, generateSCRAMSHA256, if_pos hi]
    · rw [generate_ok p i rng1 (by omega) h1, generate_ok p i rng2 (by omega) h2, hsalt]
  · rw [storedKeySpec, storedKeySpec, hk]
  · rw [serverKeySpec, serverKeySpec, hk]

theorem generateSCRAMSHA256_deterministic_modulo_salt_witness :
    (generateSCRAMSHA256 [97] 1 (Rng.mk (fun _ => 3) 0 true)).1 =
      (generateSCRAMSHA256 [97] 1 (Rng.mk (fun n => if n < 16 then 3 else 9) 0 true)).1 ∧
    storedKeySpec [97] 1 (Rng.mk (fun _ => 3) 0 true) =
      storedKeySpec [97] 1 (Rng.mk (fun n => if n < 16 then 3 else 9) 0 true) ∧
    serverKeySpec [97] 1 (Rng.mk (fun _ => 3) 0 true) =
      serverKeySpec [97] 1 (Rng.mk (fun n => if n < 16 then 3 else 9) 0 true) :=
  generateSCRAMSHA256_deterministic_modulo_salt [97] 1
    (Rng.mk (fun _ => 3) 0 true) (Rng.mk (fun n => if n < 16 then 3 else 9) 0 true)
    rfl rfl (by decide)

/-- C4: parsing the output of a successful derivation by splitting on `$` and
`:` per the documented grammar recovers the input iteration count, a salt
field decoding to exactly 16 bytes, and storedkey/serverkey fields decoding
to exactly 32 bytes each. -/
theorem generateSCRAMSHA256_format_roundtrip (p : List Nat) (i : Int) (rng : Rng)
    (hi : 1 ≤ i) (hok : rng.ok = true) :
    ∃ salt stored server : List Nat,
      scramParse (generateSCRAMSHA256 p i rng).1.1 = some (i.toNat, salt, stored, server) ∧
      (i.toNat : Int) = i ∧ salt.length = 16 ∧ stored.length = 32 ∧ server.length = 32 := by
  refine ⟨saltDrawn rng, storedKeySpec p i rng, serverKeySpec p i rng, ?_, ?_, ?_, ?_, ?_⟩
  · rw [generate_ok p i rng hi hok]
    exact scramParse_scramFormat i hi _ _ _ (rngBytes_lt rng 16) (sha256_lt _)
      (hmacSha256_lt _ _)
  · omega
  · exact rngBytes_length rng 16
  · exact sha256_length _
  · exact hmacSha256_length _ _

theorem generateSCRAMSHA256_format_roundtrip_witness :
    ∃ salt stored server : List Nat,
      scramParse (generateSCRAMSHA256 [97, 98] 4096 (Rng.mk (fun n => n) 0 true)).1.1 =
        some ((4096 : Int).toNat, salt, stored, server) ∧
      ((4096 : Int).toNat : Int) = 4096 ∧
      salt.length = 16 ∧ stored.length = 32 ∧ server.length = 32 :=
  generateSCRAMSHA256_format_roundtrip [97, 98] 4096 (Rng.mk (fun n => n) 0 true)
    (by decide) rfl

/-- C5 counterexample: the core derivation function `generateSCRAMSHA256`
does not reject an empty password — with valid iterations and a working
random source it proceeds with the derivation and returns a nil error. -/
theorem generateSCRAMSHA256_empty_password_cex :
    (generateSCRAMSHA256 [] 1 (Rng.mk (fun _ => 0) 0 true)).1.2 = none := by
  rw [generate_ok [] 1 (Rng.mk (fun _ => 0) 0 true) (by norm_num) rfl]

/-- C5 (amended): password validation lives in `validatePassword`, which the
program runs before the derivation: it rejects an empty password and a
non-UTF-8 password with descriptive errors, and on any validation error the
pipeline surfaces that error without invoking the derivation (the random
source is untouched); `generateSCRAMSHA256` itself performs no password
validation. -/
theorem validatePassword_rejects_bad_input (p : List Nat) (i : Int) (rng : Rng) (e : String) :
    validatePassword [] = some ("password cannot be empty") ∧
    (p ≠ [] → utf8Valid p = false → validatePassword p = some ("password must be valid UTF-8")) ∧
    (validatePassword p = some e →
      runPipeline p i rng = (([], some ("Invalid password: " ++ e)), rng)) := by
  refine ⟨rfl, ?_, ?_⟩
  · intro hp hv
    rw [validatePassword, if_neg (by simpa [List.length_eq_zero] using hp),
      if_pos (by simp [hv])]
  · intro hv
    rw [runPipeline, hv]

theorem validatePassword_rejects_bad_input_witness :
    validatePassword [] = some ("password cannot be empty") ∧
    validatePassword [255] = some ("password must be valid UTF-8") ∧
    runPipeline [255] 1 (Rng.mk (fun _ => 0) 0 true) =
      (([], some ("Invalid password: " ++ "password must be valid UTF-8")),
        Rng.mk (fun _ => 0) 0 true) := by
  have h := validatePassword_rejects_bad_input [255] 1 (Rng.mk (fun _ => 0) 0 true)
    ("password must be valid UTF-8")
  have h2 := h.2.1 (by decide) (by decide)
  exact ⟨h.1, h2, h.2.2 h2⟩

/-- C6: every iteration count < 1 is rejected with an error before any
cryptographic work — the random source is returned untouched (no salt bytes
are consumed) and the result carries only the error. -/
theorem generateSCRAMSHA256_rejects_low_iterations (p : List Nat) (i : Int) (rng : Rng)
    (hi : i < 1) :
    generateSCRAMSHA256 p i rng = (([], some ("iterations must be at least 1")), rng) := by
  rw [generateSCRAMSHA256, if_pos hi]

theorem generateSCRAMSHA256_rejects_low_iterations_witness :
    generateSCRAMSHA256 [97] 0 (Rng.mk (fun _ => 0) 0 true) =
      (([], some ("iterations must be at least 1")), Rng.mk (fun _ => 0) 0 true) :=
  generateSCRAMSHA256_rejects_low_iterations [97] 0 (Rng.mk (fun _ => 0) 0 true) (by norm_num)

/-- C7: the derivation is atomic in its output — whenever it returns an
error (iterations < 1, or the random source failing, which is propagated
rather than retried) the string component is empty, and on a nil error the
string is a non-empty verifier. -/
theorem generateSCRAMSHA256_atomic_output (p : List Nat) (i : Int) (rng : Rng) :
    ((generateSCRAMSHA256 p i rng).1.2.isSome = true →
      (generateSCRAMSHA256 p i rng).1.1 = []) ∧
    ((generateSCRAMSHA256 p i rng).1.2 = none → (generateSCRAMSHA256 p i rng).1.1 ≠ []) ∧
    (1 ≤ i → rng.ok = false →
      generateSCRAMSHA256 p i rng =
        (([], some ("failed to generate salt: " ++ "rng failure")), rng)) := by
  by_cases hi : i < 1
  · rw [generateSCRAMSHA256, if_pos hi]
    exact ⟨fun _ => rfl, fun h => absurd h (by simp), fun h1 _ => absurd hi (by omega)⟩
  · by_cases hok : rng.ok
    · rw [generate_ok p i rng (by omega) hok]
      refine ⟨fun h => absurd h (by simp), fun _ => ?_, fun _ hf => absurd hok (by simp [hf])⟩
      simp [scramFormat, headerChars]
    · have hgen : generateSCRAMSHA256 p i rng =
          (([], some ("failed to generate salt: " ++ "rng failure")), rng) := by
        rw [generateSCRAMSHA256, if_neg hi, randRead, if_neg hok]
      rw [hgen]
      exact ⟨fun _ => rfl, fun h => absurd h (by simp), fun _ _ => rfl⟩

theorem generateSCRAMSHA256_atomic_output_witness :
    (generateSCRAMSHA256 [97] 1 (Rng.mk (fun _ => 0) 0 false)).1.1 = [] ∧
    generateSCRAMSHA256 [97] 1 (Rng.mk (fun _ => 0) 0 false) =
      (([], some ("failed to generate salt: " ++ "rng failure")), Rng.mk (fun _ => 0) 0 false) := by
  have h := generateSCRAMSHA256_atomic_output [97] 1 (Rng.mk (fun _ => 0) 0 false)
  have h3 := h.2.2 (by norm_num) rfl
  exact ⟨h.1 (by rw [h3]; rfl), h3⟩

/-- C8: the stream password reader takes one line (up to and including the
first newline, or the whole stream at end-of-input), removes only trailing
`'\r'`/`'\n'` characters — the result is a prefix of the line whose dropped
suffix consists solely of CR/LF, so interior whitespace is preserved — and
end-of-stream without a trailing newline is accepted, never reported as an
error. -/
theorem readPasswordFromStdin_trims_crlf (input : List Char) :
    readPasswordFromStdin input = Except.ok (trimRightCRLF (readString input).1) ∧
    (∀ e : String, readPasswordFromStdin input ≠ Except.error e) ∧
    ∃ t : List Char, trimRightCRLF (readString input).1 ++ t = (readString input).1 ∧
      (∀ c ∈ t, c = '\r' ∨ c = '\n') ∧
      (∀ c : Char, (trimRightCRLF (readString input).1).getLast? = some c →
        ¬(c = '\r' ∨ c = '\n')) := by
  refine ⟨rfl, fun e h => by simp [readPasswordFromStdin] at h, ?_⟩
  exact trimRightCRLF_decomposition (readString input).1

theorem readPasswordFromStdin_trims_crlf_witness :
    readPasswordFromStdin ['a', ' ', 'b', '\r'] =
      Except.ok (trimRightCRLF (readString ['a', ' ', 'b', '\r']).1) ∧
    (∀ e : String, readPasswordFromStdin ['a', ' ', 'b', '\r'] ≠ Except.error e) ∧
    ∃ t : List Char,
      trimRightCRLF (readString ['a', ' ', 'b', '\r']).1 ++ t =
        (readString ['a', ' ', 'b', '\r']).1 ∧
      (∀ c ∈ t, c = '\r' ∨ c = '\n') ∧
      (∀ c : Char, (trimRightCRLF (readString ['a', ' ', 'b', '\r']).1).getLast? = some c →
        ¬(c = '\r' ∨ c = '\n')) :=
  readPasswordFromStdin_trims_crlf ['a', ' ', 'b', '\r']

/-- C9: the salt is drawn fresh from the random source on every call (the
source's position advances past the 16 consumed bytes), and whenever two
calls with the same password and iteration count draw different 16-byte
salts, the two output strings differ. -/
theorem generateSCRAMSHA256_fresh_salt_distinct_outputs (p : List Nat) (i : Int)
    (rng1 rng2 : Rng) (hi : 1 ≤ i) (h1 : rng1.ok = true) (h2 : rng2.ok = true)
    (hne : saltDrawn rng1 ≠ saltDrawn rng2) :
    (generateSCRAMSHA256 p i rng1).2.pos = rng1.pos + 16 ∧
    (generateSCRAMSHA256 p i rng2).2.pos = rng2.pos + 16 ∧
    (generateSCRAMSHA256 p i rng1).1.1 ≠ (generateSCRAMSHA256 p i rng2).1.1 := by
  refine ⟨by rw [generate_ok p i rng1 hi h1], by rw [generate_ok p i rng2 hi h2], ?_⟩
  intro heq
  rw [generate_ok p i rng1 hi h1, generate_ok p i rng2 hi h2] at heq
  have heqF : scramFormat i (b64encode (rngBytes rng1 16))
      (b64encode (sha256 (hmacSha256 (pbkdf2Key p (rngBytes rng1 16) i.toNat 32)
        clientKeyMessage)))
      (b64encode (hmacSha256 (pbkdf2Key p (rngBytes rng1 16) i.toNat 32) serverKeyMessage)) =
    scramFormat i (b64encode (rngBytes rng2 16))
      (b64encode (sha256 (hmacSha256 (pbkdf2Key p (rngBytes rng2 16) i.toNat 32)
        clientKeyMessage)))
      (b64encode (hmacSha256 (pbkdf2Key p (rngBytes rng2 16) i.toNat 32)
        serverKeyMessage)) := heq
  have hp1 := scramParse_scramFormat i hi (rngBytes rng1 16)
    (sha256 (hmacSha256 (pbkdf2Key p (rngBytes rng1 16) i.toNat 32) clientKeyMessage))
    (hmacSha256 (pbkdf2Key p (rngBytes rng1 16) i.toNat 32) serverKeyMessage)
    (rngBytes_lt rng1 16) (sha256_lt _) (hmacSha256_lt _ _)
  have hp2 := scramParse_scramFormat i hi (rngBytes rng2 16)
    (sha256 (hmacSha256 (pbkdf2Key p (rngBytes rng2 16) i.toNat 32) clientKeyMessage))
    (hmacSha256 (pbkdf2Key p (rngBytes rng2 16) i.toNat 32) serverKeyMessage)
    (rngBytes_lt rng2 16) (sha256_lt _) (hmacSha256_lt _ _)
  rw [heqF] at hp1
  have h := hp2.symm.trans hp1
  simp only [Option.some.injEq, Prod.mk.injEq] at h
  exact hne (by simp only [saltDrawn]; exact h.2.1.symm)

theorem generateSCRAMSHA256_fresh_salt_distinct_outputs_witness :
    (generateSCRAMSHA256 [97] 4096 (Rng.mk (fun _ => 0) 0 true)).2.pos = 0 + 16 ∧
    (generateSCRAMSHA256 [97] 4096 (Rng.mk (fun _ => 1) 0 true)).2.pos = 0 + 16 ∧
    (generateSCRAMSHA256 [97] 4096 (Rng.mk (fun _ => 0) 0 true)).1.1 ≠
      (generateSCRAMSHA256 [97] 4096 (Rng.mk (fun _ => 1) 0 true)).1.1 :=
  generateSCRAMSHA256_fresh_salt_distinct_outputs [97] 4096
    (Rng.mk (fun _ => 0) 0 true) (Rng.mk (fun _ => 1) 0 true)
    (by norm_num) rfl rfl (by decide)

theorem natDecimal_length (n : Nat) (hn : n ≠ 0) :
    (natDecimal n).length = Nat.log 10 n + 1 := by
  rw [natDecimal, if_neg hn]
  simp [Nat.digits_len 10 n (by norm_num) hn]

theorem b64encode_ne_delim_class (b : List Nat) (c : Char)
    (hc : c ∈ b64encode b) : c ≠ '$' ∧ c ≠ ':' := b64encode_ne_delim b c hc

/-- C10: the output of a successful derivation has a fixed shape: the base64
salt field is exactly 24 characters, the storedkey and serverkey fields are
exactly 44 characters each, none of the three base64 fields contains a `$`
or `:` character, and the total output length is `129` plus the number of
decimal digits of the iteration count. -/
theorem generateSCRAMSHA256_output_shape (p : List Nat) (i : Int) (rng : Rng)
    (hi : 1 ≤ i) (hok : rng.ok = true) :
    (b64encode (saltDrawn rng)).length = 24 ∧
    (b64encode (storedKeySpec p i rng)).length = 44 ∧
    (b64encode (serverKeySpec p i rng)).length = 44 ∧
    (∀ c : Char, (c ∈ b64encode (saltDrawn rng) ∨ c ∈ b64encode (storedKeySpec p i rng) ∨
        c ∈ b64encode (serverKeySpec p i rng)) → c ≠ '$' ∧ c ≠ ':') ∧
    (generateSCRAMSHA256 p i rng).1.1.length = 129 + (Nat.log 10 i.toNat + 1) := by
  have hsalt : (b64encode (saltDrawn rng)).length = 24 := by
    rw [b64encode_length, saltDrawn, rngBytes_length]
  have hst : (b64encode (storedKeySpec p i rng)).length = 44 := by
    rw [b64encode_length, storedKeySpec, sha256_length]
  have hsv : (b64encode (serverKeySpec p i rng)).length = 44 := by
    rw [b64encode_length, serverKeySpec, hmacSha256_length]
  refine ⟨hsalt, hst, hsv, ?_, ?_⟩
  · intro c hc
    rcases hc with hc | hc | hc <;> exact b64encode_ne_delim _ c hc
  · rw [generate_ok p i rng hi hok]
    have hd : (intDecimal i).length = Nat.log 10 i.toNat + 1 := by
      rw [intDecimal_of_pos i hi, natDecimal_length i.toNat (by omega)]
    simp only [scramFormat, List.length_append, List.length_cons, hd]
    have h1 : (b64encode (rngBytes rng 16)).length = 24 := hsalt
    have h2 : (b64encode (sha256 (hmacSha256 (pbkdf2Key p (rngBytes rng 16) i.toNat 32)
        clientKeyMessage))).length = 44 := hst
    have h3 : (b64encode (hmacSha256 (pbkdf2Key p (rngBytes rng 16) i.toNat 32)
        serverKeyMessage)).length = 44 := hsv
    rw [h1, h2, h3]
    simp [headerChars]
    omega

theorem generateSCRAMSHA256_output_shape_witness :
    (b64encode (saltDrawn (Rng.mk (fun _ => 0) 0 true))).length = 24 ∧
    (b64encode (storedKeySpec [97] 4096 (Rng.mk (fun _ => 0) 0 true))).length = 44 ∧
    (b64encode (serverKeySpec [97] 4096 (Rng.mk (fun _ => 0) 0 true))).length = 44 ∧
    (∀ c : Char, (c ∈ b64encode (saltDrawn (Rng.mk (fun _ => 0) 0 true)) ∨
        c ∈ b64encode (storedKeySpec [97] 4096 (Rng.mk (fun _ => 0) 0 true)) ∨
        c ∈ b64encode (serverKeySpec [97] 4096 (Rng.mk (fun _ => 0) 0 true))) →
      c ≠ '$' ∧ c ≠ ':') ∧
    (generateSCRAMSHA256 [97] 4096 (Rng.mk (fun _ => 0) 0 true)).1.1.length =
      129 + (Nat.log 10 (4096 : Int).toNat + 1) :=
  generateSCRAMSHA256_output_shape [97] 4096 (Rng.mk (fun _ => 0) 0 true) (by norm_num) rfl

end Scram
